import Mathlib

/-!
Shallow embedding of the rust-macaroons crate (src/lib.rs and src/verifier.rs).

Bytes are modelled as `Nat` values (below 256 in well-formed data) and
`Vec<u8>` as `List Nat`.  The HMAC-SHA256 primitive is external to the crate
and is modelled as an abstract function type `Mac`, with the argument order of
`sodiumoxide::crypto::auth::hmacsha256::authenticate(message, key)`.  Fallible
Rust control flow is modelled with `RunResult`: `ok` for `Ok`, `err` for
`Err`, and `fatal` for an uncatchable Rust abort (out-of-bounds slicing,
`unwrap` of `None`, an explicit abort in `packetize`).
-/

/-- Byte values of an ASCII string literal. -/
def asciiBytes (s : String) : List Nat := s.data.map Char.toNat

/-- Type of the external keyed-MAC boundary: `mac message key` is the 32-byte
tag of `message` under `key`, matching the argument order of
`authenticate(message, key)` in sodiumoxide. -/
def Mac : Type := List Nat → List Nat → List Nat

/-- The crate constant `KEY_GENERATOR`: the 23 text bytes of
`macaroons-key-generator` zero-padded to 32 bytes. -/
def KEY_GENERATOR : List Nat := asciiBytes "macaroons-key-generator" ++ List.replicate 9 0

/-- Modelled from the spec: the file `src/caveat.rs` of this crate is not
among the provided sources.  Section 3 of the spec gives the predicate as an
opaque byte sequence; `lib.rs` uses it as a one-field wrapper `Predicate(..)`
around the bytes. -/
structure Predicate where
  bytes : List Nat
deriving DecidableEq

/-- Modelled from the spec: a caveat carries a `predicate`, an optional
`verification_id` (absent for first-party caveats) and an optional
`location`. -/
structure Caveat where
  predicate : Predicate
  verification_id : Option (List Nat)
  location : Option (List Nat)
deriving DecidableEq

/-- Modelled from the spec: `Caveat::new` wraps a predicate as a first-party
caveat, leaving `verification_id` and `location` absent. -/
def Caveat.new (predicate : Predicate) : Caveat :=
  { predicate := predicate, verification_id := none, location := none }

/-- The `Token` struct of `lib.rs`; `tag` is the 32-byte signature. -/
structure Token where
  location : List Nat
  identifier : List Nat
  caveats : List Caveat
  tag : List Nat
deriving DecidableEq

/-- The `Packet` struct of `lib.rs`. -/
structure Packet where
  field : List Nat
  value : List Nat
deriving DecidableEq

/-- Result of running a piece of Rust code: a value, a recoverable `Err`, or
an uncatchable abort (`fatal`). -/
inductive RunResult (α : Type) where
  | ok : α → RunResult α
  | err : String → RunResult α
  | fatal : String → RunResult α
deriving DecidableEq

/-- `Token::new`: the personalized key is `authenticate(key, KEY_GENERATOR)`
(message = root key, key = the constant) and the initial tag is
`authenticate(identifier, personalized_key)`. -/
def Token.new (mac : Mac) (key identifier location : List Nat) : Token :=
  let personalized_key := mac key KEY_GENERATOR
  let tag := mac identifier personalized_key
  { location := location, identifier := identifier, caveats := [], tag := tag }

/-- `Token::add_caveat`: functional update appending one caveat and chaining
the tag with `authenticate(predicate, current_tag)`. -/
def Token.add_caveat (mac : Mac) (t : Token) (caveat : Caveat) : Token :=
  let tag := mac caveat.predicate.bytes t.tag
  { identifier := t.identifier, location := t.location,
    caveats := t.caveats ++ [caveat], tag := tag }

/-- A token built by `new` followed by a finite sequence of `add_caveat`
calls, one per listed caveat, in order. -/
def buildToken (mac : Mac) (key identifier location : List Nat) (cs : List Caveat) : Token :=
  cs.foldl (Token.add_caveat mac) (Token.new mac key identifier location)

/-- The chain step of the scheme: fold each message through the MAC, the
previous tag acting as the key. -/
def chainFold (mac : Mac) (init : List Nat) (msgs : List (List Nat)) : List Nat :=
  msgs.foldl (fun t m => mac m t) init

/-- Character table `URLSAFE_CHARS` of rustc-serialize, as byte values. -/
def urlsafeChar (n : Nat) : Nat :=
  if n < 26 then 65 + n
  else if n < 52 then 71 + n
  else if n < 62 then n - 4
  else if n = 62 then 45
  else 95

/-- Function `to_base64` of rustc-serialize with the crate configuration
`base64::URL_SAFE` (URL-safe alphabet, no padding, no line wrap): 3-byte
chunks become 4 alphabet characters; a 1- or 2-byte leftover becomes 2 or 3
characters. -/
def toBase64 : List Nat → List Nat
  | b1 :: b2 :: b3 :: rest =>
    let n := b1 % 256 * 65536 + b2 % 256 * 256 + b3 % 256
    urlsafeChar (n / 262144 % 64) :: urlsafeChar (n / 4096 % 64) ::
      urlsafeChar (n / 64 % 64) :: urlsafeChar (n % 64) :: toBase64 rest
  | [b1, b2] =>
    let n := b1 % 256 * 65536 + b2 % 256 * 256
    [urlsafeChar (n / 262144 % 64), urlsafeChar (n / 4096 % 64), urlsafeChar (n / 64 % 64)]
  | [b1] =>
    let n := b1 % 256 * 65536
    [urlsafeChar (n / 262144 % 64), urlsafeChar (n / 4096 % 64)]
  | [] => []

/-- Value of one character in `from_base64` of rustc-serialize, which accepts
both the standard and the URL-safe alphabet. -/
def b64Val (b : Nat) : Option Nat :=
  if 65 ≤ b ∧ b ≤ 90 then some (b - 65)
  else if 97 ≤ b ∧ b ≤ 122 then some (b - 71)
  else if 48 ≤ b ∧ b ≤ 57 then some (b + 4)
  else if b = 43 ∨ b = 45 then some 62
  else if b = 47 ∨ b = 95 then some 63
  else none

/-- Leftover handling at the end of `from_base64`: 2 or 3 pending characters
yield 1 or 2 final bytes, any other non-zero residue is an error. -/
def b64Finish (buf modulus : Nat) (acc : List Nat) : Except String (List Nat) :=
  match modulus with
  | 0 => Except.ok acc
  | 2 => Except.ok (acc ++ [buf / 1024 % 256])
  | 3 => Except.ok (acc ++ [buf / 65536 % 256, buf / 256 % 256])
  | _ => Except.error "invalid base64 length"

/-- Main loop of `from_base64` of rustc-serialize: a 32-bit accumulator `buf`
collects 6-bit values (`buf` is ORed with the value, then shifted left by 6);
every 4 characters three bytes are emitted; carriage returns and line feeds
are skipped; an equals sign stops the loop, after which only padding and line
break characters may follow. -/
def fromBase64Go : List Nat → Nat → Nat → List Nat → Except String (List Nat)
  | [], buf, modulus, acc => b64Finish buf modulus acc
  | b :: rest, buf, modulus, acc =>
    if b = 13 ∨ b = 10 then fromBase64Go rest buf modulus acc
    else if b = 61 then
      if rest.all (fun c => c == 61 || c == 13 || c == 10) then b64Finish buf modulus acc
      else Except.error "invalid base64 byte"
    else
      match b64Val b with
      | none => Except.error "invalid base64 byte"
      | some v =>
        let buf2 := (buf ||| v) * 64 % 4294967296
        if modulus + 1 = 4 then
          fromBase64Go rest buf2 0
            (acc ++ [buf2 / 4194304 % 256, buf2 / 16384 % 256, buf2 / 64 % 256])
        else
          fromBase64Go rest buf2 (modulus + 1) acc

/-- Function `from_base64` of rustc-serialize. -/
def from_base64 (input : List Nat) : Except String (List Nat) :=
  fromBase64Go input 0 0 []

/-- Lowercase hex digit character for one nibble, as Rust lowercase hex
formatting emits it. -/
def hexDigitChar (n : Nat) : Nat := if n < 10 then 48 + n else 87 + n

/-- Bytes of the Rust format directive for lowercase hex, zero-padded to
width 4, applied to `n`.  `Token::packetize` formats only values it has
checked to be at most 65535, and on that domain the directive emits exactly
the four hex nibbles, high to low. -/
def pad4hex (n : Nat) : List Nat :=
  [hexDigitChar (n / 4096 % 16), hexDigitChar (n / 256 % 16),
   hexDigitChar (n / 16 % 16), hexDigitChar (n % 16)]

/-- Hex digit value of a character code, as `to_digit(16)` computes it. -/
def to_digit16 (c : Nat) : Option Nat :=
  if 48 ≤ c ∧ c ≤ 57 then some (c - 48)
  else if 97 ≤ c ∧ c ≤ 102 then some (c - 87)
  else if 65 ≤ c ∧ c ≤ 70 then some (c - 55)
  else none

/-- Radix-16 string parse used for the packet length prefix, on the bytes of
the string: every character must be a hex digit, accumulated
most-significant first; the empty string fails. -/
def from_str_radix16 (s : List Nat) : Option Nat :=
  if s.isEmpty then none
  else
    s.foldl (fun acc c =>
      match acc, to_digit16 c with
      | some a, some d => some (a * 16 + d)
      | _, _ => none) (some 0)

/-- One continuation byte check: position `i` of `l` exists and lies in the
half-open range from `lo` to `hi`. -/
def contByte (l : List Nat) (i lo hi : Nat) : Bool :=
  match l.get? i with
  | some c => decide (lo ≤ c ∧ c < hi)
  | none => false

/-- UTF-8 validity of a byte list, as checked by `from_utf8`: ASCII bytes
stand alone; lead bytes C2..DF, E0..EF and F0..F4 take 1, 2 and 3
continuation bytes in 80..BF, with the usual tightened first-continuation
ranges excluding overlong forms and surrogates; anything else (a stray
continuation byte, an overlong lead C0..C1, a lead above F4, or a truncated
sequence) is invalid. -/
def utf8Valid : List Nat → Bool
  | [] => true
  | b :: rest =>
    if b < 128 then utf8Valid rest
    else if b < 194 then false
    else if b < 224 then
      contByte rest 0 128 192 && utf8Valid (rest.drop 1)
    else if b < 240 then
      contByte rest 0 (if b = 224 then 160 else 128) (if b = 237 then 160 else 192) &&
        contByte rest 1 128 192 && utf8Valid (rest.drop 2)
    else if b < 245 then
      contByte rest 0 (if b = 240 then 144 else 128) (if b = 244 then 144 else 192) &&
        contByte rest 1 128 192 && contByte rest 2 128 192 && utf8Valid (rest.drop 3)
    else false
termination_by l => l.length
decreasing_by all_goals simp [List.length_drop] <;> omega

/-- Rust slice `data[a .. b]` once its bounds checks have passed. -/
def rustSlice (data : List Nat) (a b : Nat) : List Nat := (data.drop a).take (b - a)

/-- `Token::depacketize`.  The Rust slice expressions abort when a bound is
out of range, and popping the value of a packet that is empty after the space
separator aborts in `unwrap`; those paths are the `fatal` results. -/
def Token.depacketize (data : List Nat) (index : Nat) : RunResult (Packet × Nat) :=
  if index + 4 > data.length then RunResult.fatal "slice index out of range"
  else
    let length_bytes := rustSlice data index (index + 4)
    if ¬ utf8Valid length_bytes then RunResult.err "could not stringify packet length"
    else
      match from_str_radix16 length_bytes with
      | none => RunResult.err "could not parse packet length"
      | some packet_length =>
        if packet_length < 4 then RunResult.fatal "slice index out of range"
        else if index + packet_length > data.length then
          RunResult.fatal "slice index out of range"
        else
          let packet_bytes := rustSlice data (index + 4) (index + packet_length)
          match packet_bytes.findIdx? (fun byte => byte == 32) with
          | none => RunResult.err "malformed packet"
          | some pos =>
            let value := (packet_bytes.drop pos).drop 1
            match value.getLast? with
            | none => RunResult.fatal "called unwrap on None"
            | some last =>
              if last = 10 then
                RunResult.ok ({ field := packet_bytes.take pos, value := value.dropLast },
                  packet_length)
              else RunResult.err "packet not newline terminated"

/-- Byte values of the field name `location`. -/
def locationField : List Nat := asciiBytes "location"

/-- Byte values of the field name `identifier`. -/
def identifierField : List Nat := asciiBytes "identifier"

/-- Byte values of the field name `cid`. -/
def cidField : List Nat := asciiBytes "cid"

/-- Byte values of the field name `signature`. -/
def signatureField : List Nat := asciiBytes "signature"

/-- Mutable state of the `while` loop in `Token::deserialize`. -/
structure DeserSt where
  location : Option (List Nat)
  identifier : Option (List Nat)
  caveats : List Caveat
  tag : Option (List Nat)
deriving DecidableEq

/-- The `while` loop of `Token::deserialize`: read packets while the index is
within the decoded data, dispatching on the field name. -/
def Token.deserializeLoop (data : List Nat) (index : Nat) (st : DeserSt) : RunResult DeserSt :=
  if hlt : index < data.length then
    match hdep : Token.depacketize data index with
    | RunResult.fatal m => RunResult.fatal m
    | RunResult.err m => RunResult.err m
    | RunResult.ok (packet, taken) =>
      if packet.field = locationField then
        Token.deserializeLoop data (index + taken) { st with location := some packet.value }
      else if packet.field = identifierField then
        Token.deserializeLoop data (index + taken) { st with identifier := some packet.value }
      else if packet.field = cidField then
        Token.deserializeLoop data (index + taken)
          { st with caveats := st.caveats ++ [Caveat.new (Predicate.mk packet.value)] }
      else if packet.field = signatureField then
        if packet.value.length ≠ 32 then RunResult.err "invalid signature length"
        else Token.deserializeLoop data (index + taken) { st with tag := some packet.value }
      else RunResult.err "unrecognized packet type"
  else RunResult.ok st
termination_by data.length - index
decreasing_by
  all_goals
  · have h4 : 4 ≤ taken := by
      unfold Token.depacketize at hdep
      dsimp only at hdep
      repeat' split at hdep
      all_goals cases hdep
      all_goals omega
    omega

/-- `Token::deserialize`. -/
def Token.deserialize (macaroon : List Nat) : RunResult Token :=
  match from_base64 macaroon with
  | Except.error _ => RunResult.err "could not parse base64"
  | Except.ok token_data =>
    match Token.deserializeLoop token_data 0
        { location := none, identifier := none, caveats := [], tag := none } with
    | RunResult.fatal m => RunResult.fatal m
    | RunResult.err m => RunResult.err m
    | RunResult.ok st =>
      if st.location = none then RunResult.err "no location found"
      else if st.identifier = none then RunResult.err "no identifier found"
      else if st.tag = none then RunResult.err "no signature found"
      else
        RunResult.ok { location := st.location.getD [], identifier := st.identifier.getD [],
                       caveats := st.caveats, tag := st.tag.getD [] }

/-- `Token::packetize`: the bytes this call appends to the output, or the
packet-too-large abort.  The emitted bytes are the 4-digit hex total length,
the field name, one space, the value, one line feed. -/
def Token.packetize (field : String) (value : List Nat) : RunResult (List Nat) :=
  let field_bytes := asciiBytes field
  let packet_length := 4 + field_bytes.length + value.length + 2
  if packet_length > 65535 then RunResult.fatal "packet too large to serialize"
  else RunResult.ok (pad4hex packet_length ++ field_bytes ++ [32] ++ value ++ [10])

/-- The `cid` packets of the caveat loop in `Token::serialize`, in caveat
order. -/
def packetizeCaveats : List Caveat → RunResult (List Nat)
  | [] => RunResult.ok []
  | c :: cs =>
    match Token.packetize "cid" c.predicate.bytes with
    | RunResult.ok p =>
      (match packetizeCaveats cs with
       | RunResult.ok ps => RunResult.ok (p ++ ps)
       | r => r)
    | RunResult.err m => RunResult.err m
    | RunResult.fatal m => RunResult.fatal m

/-- The packet byte stream `Token::serialize` builds before base64-encoding
it: location, identifier, the cid packets, then the signature packet. -/
def Token.serializePackets (t : Token) : RunResult (List Nat) :=
  match Token.packetize "location" t.location with
  | RunResult.ok p1 =>
    (match Token.packetize "identifier" t.identifier with
     | RunResult.ok p2 =>
       (match packetizeCaveats t.caveats with
        | RunResult.ok pc =>
          (match Token.packetize "signature" t.tag with
           | RunResult.ok p4 => RunResult.ok (p1 ++ p2 ++ pc ++ p4)
           | r => r)
        | r => r)
     | r => r)
  | r => r

/-- `Token::serialize`: the packet stream, base64-encoded. -/
def Token.serialize (t : Token) : RunResult (List Nat) :=
  match Token.serializePackets t with
  | RunResult.ok bs => RunResult.ok (toBase64 bs)
  | RunResult.err m => RunResult.err m
  | RunResult.fatal m => RunResult.fatal m

/-- Composition `deserialize(serialize(t))`, aborts and errors propagated. -/
def roundTrip (t : Token) : RunResult Token :=
  match Token.serialize t with
  | RunResult.ok bs => Token.deserialize bs
  | RunResult.err m => RunResult.err m
  | RunResult.fatal m => RunResult.fatal m

/-- The `Verifier` capability of `src/verifier.rs`: a checker is its
`verify(caveat) -> bool` function. -/
def VerifierFn : Type := List Nat → Bool

/-- Method `verify` of the `Verifier` capability. -/
def Verifier.verify (v : VerifierFn) (caveat : List Nat) : Bool := v caveat

/-- `LinkedVerifier::from` together with its `Verifier` impl: the combined
checker accepts iff either part accepts. -/
def LinkedVerifier.from (verifier1 verifier2 : VerifierFn) : VerifierFn :=
  fun caveat => Verifier.verify verifier1 caveat || Verifier.verify verifier2 caveat

/-- `LinkVerifier::link`: linking `v` onto `self` yields
`LinkedVerifier::from(v, self)`. -/
def LinkVerifier.link (self v : VerifierFn) : VerifierFn :=
  LinkedVerifier.from v self

/-- A chain built from a base checker by repeated `link` calls, one per
listed checker, in order. -/
def linkChain (base : VerifierFn) (vs : List VerifierFn) : VerifierFn :=
  vs.foldl LinkVerifier.link base

/-- All entries of a byte list are byte values. -/
def bytesWf (l : List Nat) : Prop := ∀ b ∈ l, b < 256

/-- Byte-range well-formedness is decidable (it is a bounded quantifier). -/
instance (l : List Nat) : Decidable (bytesWf l) :=
  inferInstanceAs (Decidable (∀ b ∈ l, b < 256))

/-- A field/value pair is a well-formed packet for the wire format: byte
values only, the packet fits in the length prefix, and the field is one of
the four known names (a signature value moreover has tag size). -/
def PacketWf (p : List Nat × List Nat) : Prop :=
  bytesWf p.2 ∧ 4 + p.1.length + p.2.length + 2 ≤ 65535 ∧
    (p.1 = locationField ∨ p.1 = identifierField ∨ p.1 = cidField ∨
     (p.1 = signatureField ∧ p.2.length = 32))

/-- Packet well-formedness is decidable. -/
instance (p : List Nat × List Nat) : Decidable (PacketWf p) :=
  inferInstanceAs (Decidable (bytesWf p.2 ∧ 4 + p.1.length + p.2.length + 2 ≤ 65535 ∧
    (p.1 = locationField ∨ p.1 = identifierField ∨ p.1 = cidField ∨
     (p.1 = signatureField ∧ p.2.length = 32))))

/-- The wire bytes of one packet with field `f` and value `v`. -/
def packetBytes (f v : List Nat) : List Nat :=
  pad4hex (4 + f.length + v.length + 2) ++ f ++ [32] ++ v ++ [10]

/-- Concatenated wire bytes of a list of packets. -/
def packetStream : List (List Nat × List Nat) → List Nat
  | [] => []
  | p :: ps => packetBytes p.1 p.2 ++ packetStream ps

/-- Effect of one parsed packet on the deserializer state, mirroring the
field dispatch of the loop. -/
def stepState (st : DeserSt) (p : List Nat × List Nat) : DeserSt :=
  if p.1 = locationField then { st with location := some p.2 }
  else if p.1 = identifierField then { st with identifier := some p.2 }
  else if p.1 = cidField then
    { st with caveats := st.caveats ++ [Caveat.new (Predicate.mk p.2)] }
  else if p.1 = signatureField then { st with tag := some p.2 }
  else st

/-- Value of the last packet named `f` in a packet list, if any. -/
def lastField (f : List Nat) : List (List Nat × List Nat) → Option (List Nat)
  | [] => none
  | p :: ps =>
    match lastField f ps with
    | some w => some w
    | none => if p.1 = f then some p.2 else none

/-- The caveats contributed by the `cid` packets of a packet list, in stream
order. -/
def cidCaveats : List (List Nat × List Nat) → List Caveat
  | [] => []
  | p :: ps =>
    (if p.1 = cidField then [Caveat.new (Predicate.mk p.2)] else []) ++ cidCaveats ps

/-- The packet list a token serializes to. -/
def Token.packets (t : Token) : List (List Nat × List Nat) :=
  ((locationField, t.location) :: (identifierField, t.identifier) ::
    t.caveats.map (fun c => (cidField, c.predicate.bytes))) ++ [(signatureField, t.tag)]

/-- A concrete MAC instance that separates the message role from the key
role: the tag is the message followed by the key. -/
def macConcat : Mac := fun message key => message ++ key

/-- A token whose identifier is so large that its packet total length would
exceed 65535. -/
def bigToken : Token :=
  { location := [], identifier := List.replicate 65526 48, caveats := [],
    tag := List.replicate 32 0 }

/-- The bytes `ds` are exactly the width-4 zero-padded lowercase hex
rendering of `n`: four bytes, each a digit or a lowercase hex letter, whose
hex value read most-significant-first is `n`. -/
def IsHex4Of (ds : List Nat) (n : Nat) : Prop :=
  ds.length = 4 ∧
  (∀ d ∈ ds, (48 ≤ d ∧ d ≤ 57) ∨ (97 ≤ d ∧ d ≤ 102)) ∧
  ds.foldl (fun acc d => acc * 16 + (to_digit16 d).getD 0) 0 = n

/-- A small concrete token used to instantiate universally quantified
results: location `http`, identifier `key`, one caveat `a = b`, constant
tag. -/
def sampleToken : Token :=
  { location := [104, 116, 116, 112], identifier := [107, 101, 121],
    caveats := [Caveat.new (Predicate.mk [97, 32, 61, 32, 98])],
    tag := List.replicate 32 7 }

/-- A concrete packet list containing duplicate location and signature
packets, each individually well formed. -/
def dupPackets : List (List Nat × List Nat) :=
  [(locationField, [97]), (locationField, [98]), (identifierField, [105]),
   (signatureField, List.replicate 32 0), (signatureField, List.replicate 32 1)]

/-- A concrete packet list whose packets are well formed but which omits the
signature field. -/
def noSigPackets : List (List Nat × List Nat) :=
  [(locationField, [97]), (identifierField, [105]), (cidField, [99])]

theorem lor_small_eq_add {a v : Nat} (ha : a % 64 = 0) (hv : v < 64) : a ||| v = a + v := by
  have h1 : 2 ^ 6 * (a / 64) = a := by omega
  rw [← h1, ← Nat.mul_add_lt_is_or (show v < 2 ^ 6 by omega)]

theorem b64Val_urlsafeChar :
    ∀ v, v < 64 → b64Val (urlsafeChar v) = some v ∧
      urlsafeChar v ≠ 13 ∧ urlsafeChar v ≠ 10 ∧ urlsafeChar v ≠ 61 := by decide

theorem fromBase64Go_char (b v : Nat) (hv : b64Val b = some v) (h13 : b ≠ 13) (h10 : b ≠ 10)
    (h61 : b ≠ 61) (rest : List Nat) (buf modulus : Nat) (acc : List Nat) :
    fromBase64Go (b :: rest) buf modulus acc =
      if modulus + 1 = 4 then
        fromBase64Go rest ((buf ||| v) * 64 % 4294967296) 0
          (acc ++ [(buf ||| v) * 64 % 4294967296 / 4194304 % 256,
                   (buf ||| v) * 64 % 4294967296 / 16384 % 256,
                   (buf ||| v) * 64 % 4294967296 / 64 % 256])
      else fromBase64Go rest ((buf ||| v) * 64 % 4294967296) (modulus + 1) acc := by
  simp [fromBase64Go, h13, h10, h61, hv]

theorem chunk_arith (buf b1 b2 b3 : Nat) (hbuf : buf % 64 = 0)
    (h1 : b1 < 256) (h2 : b2 < 256) (h3 : b3 < 256) :
    ((((buf + (b1 * 65536 + b2 * 256 + b3) / 262144 % 64) * 64 % 4294967296
        + (b1 * 65536 + b2 * 256 + b3) / 4096 % 64) * 64 % 4294967296
        + (b1 * 65536 + b2 * 256 + b3) / 64 % 64) * 64 % 4294967296
        + (b1 * 65536 + b2 * 256 + b3) % 64) * 64 % 4294967296 / 4194304 % 256 = b1 ∧
    ((((buf + (b1 * 65536 + b2 * 256 + b3) / 262144 % 64) * 64 % 4294967296
        + (b1 * 65536 + b2 * 256 + b3) / 4096 % 64) * 64 % 4294967296
        + (b1 * 65536 + b2 * 256 + b3) / 64 % 64) * 64 % 4294967296
        + (b1 * 65536 + b2 * 256 + b3) % 64) * 64 % 4294967296 / 16384 % 256 = b2 ∧
    ((((buf + (b1 * 65536 + b2 * 256 + b3) / 262144 % 64) * 64 % 4294967296
        + (b1 * 65536 + b2 * 256 + b3) / 4096 % 64) * 64 % 4294967296
        + (b1 * 65536 + b2 * 256 + b3) / 64 % 64) * 64 % 4294967296
        + (b1 * 65536 + b2 * 256 + b3) % 64) * 64 % 4294967296 / 64 % 256 = b3 ∧
    ((((buf + (b1 * 65536 + b2 * 256 + b3) / 262144 % 64) * 64 % 4294967296
        + (b1 * 65536 + b2 * 256 + b3) / 4096 % 64) * 64 % 4294967296
        + (b1 * 65536 + b2 * 256 + b3) / 64 % 64) * 64 % 4294967296
        + (b1 * 65536 + b2 * 256 + b3) % 64) * 64 % 4294967296 % 64 = 0 := by
  omega

theorem fromBase64Go_toBase64 (bs : List Nat) :
    ∀ buf acc, (∀ b ∈ bs, b < 256) → buf % 64 = 0 →
      fromBase64Go (toBase64 bs) buf 0 acc = Except.ok (acc ++ bs) := by
  induction bs using toBase64.induct with
  | case1 b1 b2 b3 rest ih =>
    intro buf acc hbs hbuf
    have h1 : b1 < 256 := hbs b1 (by simp)
    have h2 : b2 < 256 := hbs b2 (by simp)
    have h3 : b3 < 256 := hbs b3 (by simp)
    have hv1 : (b1 * 65536 + b2 * 256 + b3) / 262144 % 64 < 64 := by omega
    have hv2 : (b1 * 65536 + b2 * 256 + b3) / 4096 % 64 < 64 := by omega
    have hv3 : (b1 * 65536 + b2 * 256 + b3) / 64 % 64 < 64 := by omega
    have hv4 : (b1 * 65536 + b2 * 256 + b3) % 64 < 64 := by omega
    have hc1 := b64Val_urlsafeChar _ hv1
    have hc2 := b64Val_urlsafeChar _ hv2
    have hc3 := b64Val_urlsafeChar _ hv3
    have hc4 := b64Val_urlsafeChar _ hv4
    have harith := chunk_arith buf b1 b2 b3 hbuf h1 h2 h3
    simp only [toBase64, Nat.mod_eq_of_lt h1, Nat.mod_eq_of_lt h2, Nat.mod_eq_of_lt h3]
    rw [fromBase64Go_char _ _ hc1.1 hc1.2.1 hc1.2.2.1 hc1.2.2.2, if_neg (by decide),
        lor_small_eq_add hbuf hv1]
    rw [fromBase64Go_char _ _ hc2.1 hc2.2.1 hc2.2.2.1 hc2.2.2.2, if_neg (by decide),
        lor_small_eq_add (by omega) hv2]
    rw [fromBase64Go_char _ _ hc3.1 hc3.2.1 hc3.2.2.1 hc3.2.2.2, if_neg (by decide),
        lor_small_eq_add (by omega) hv3]
    rw [fromBase64Go_char _ _ hc4.1 hc4.2.1 hc4.2.2.1 hc4.2.2.2, if_pos (by decide),
        lor_small_eq_add (by omega) hv4]
    rw [harith.1, harith.2.1, harith.2.2.1]
    rw [ih _ (acc ++ [b1, b2, b3]) (fun b hb => hbs b (by simp [hb])) harith.2.2.2]
    simp
  | case2 b1 b2 =>
    intro buf acc hbs hbuf
    have h1 : b1 < 256 := hbs b1 (by simp)
    have h2 : b2 < 256 := hbs b2 (by simp)
    have hv1 : (b1 * 65536 + b2 * 256) / 262144 % 64 < 64 := by omega
    have hv2 : (b1 * 65536 + b2 * 256) / 4096 % 64 < 64 := by omega
    have hv3 : (b1 * 65536 + b2 * 256) / 64 % 64 < 64 := by omega
    have hc1 := b64Val_urlsafeChar _ hv1
    have hc2 := b64Val_urlsafeChar _ hv2
    have hc3 := b64Val_urlsafeChar _ hv3
    simp only [toBase64, Nat.mod_eq_of_lt h1, Nat.mod_eq_of_lt h2]
    rw [fromBase64Go_char _ _ hc1.1 hc1.2.1 hc1.2.2.1 hc1.2.2.2, if_neg (by decide),
        lor_small_eq_add hbuf hv1]
    rw [fromBase64Go_char _ _ hc2.1 hc2.2.1 hc2.2.2.1 hc2.2.2.2, if_neg (by decide),
        lor_small_eq_add (by omega) hv2]
    rw [fromBase64Go_char _ _ hc3.1 hc3.2.1 hc3.2.2.1 hc3.2.2.2, if_neg (by decide),
        lor_small_eq_add (by omega) hv3]
    show b64Finish _ 3 acc = _
    simp only [b64Finish]
    have e1 : (((buf + (b1 * 65536 + b2 * 256) / 262144 % 64) * 64 % 4294967296
        + (b1 * 65536 + b2 * 256) / 4096 % 64) * 64 % 4294967296
        + (b1 * 65536 + b2 * 256) / 64 % 64) * 64 % 4294967296 / 65536 % 256 = b1 := by omega
    have e2 : (((buf + (b1 * 65536 + b2 * 256) / 262144 % 64) * 64 % 4294967296
        + (b1 * 65536 + b2 * 256) / 4096 % 64) * 64 % 4294967296
        + (b1 * 65536 + b2 * 256) / 64 % 64) * 64 % 4294967296 / 256 % 256 = b2 := by omega
    rw [e1, e2]
  | case3 b1 =>
    intro buf acc hbs hbuf
    have h1 : b1 < 256 := hbs b1 (by simp)
    have hv1 : b1 * 65536 / 262144 % 64 < 64 := by omega
    have hv2 : b1 * 65536 / 4096 % 64 < 64 := by omega
    have hc1 := b64Val_urlsafeChar _ hv1
    have hc2 := b64Val_urlsafeChar _ hv2
    simp only [toBase64, Nat.mod_eq_of_lt h1]
    rw [fromBase64Go_char _ _ hc1.1 hc1.2.1 hc1.2.2.1 hc1.2.2.2, if_neg (by decide),
        lor_small_eq_add hbuf hv1]
    rw [fromBase64Go_char _ _ hc2.1 hc2.2.1 hc2.2.2.1 hc2.2.2.2, if_neg (by decide),
        lor_small_eq_add (by omega) hv2]
    show b64Finish _ 2 acc = _
    simp only [b64Finish]
    have e1 : ((buf + b1 * 65536 / 262144 % 64) * 64 % 4294967296
        + b1 * 65536 / 4096 % 64) * 64 % 4294967296 / 1024 % 256 = b1 := by omega
    rw [e1]
  | case4 =>
    intro buf acc hbs hbuf
    simp [toBase64, fromBase64Go, b64Finish]

theorem from_base64_toBase64 (bs : List Nat) (hbs : ∀ b ∈ bs, b < 256) :
    from_base64 (toBase64 bs) = Except.ok bs := by
  simpa using fromBase64Go_toBase64 bs 0 [] hbs rfl

theorem to_digit16_hexDigitChar :
    ∀ d, d < 16 → to_digit16 (hexDigitChar d) = some d ∧ hexDigitChar d < 128 := by decide

theorem from_str_radix16_pad4hex (n : Nat) (hn : n < 65536) :
    from_str_radix16 (pad4hex n) = some n := by
  have h1 := (to_digit16_hexDigitChar (n / 4096 % 16) (by omega)).1
  have h2 := (to_digit16_hexDigitChar (n / 256 % 16) (by omega)).1
  have h3 := (to_digit16_hexDigitChar (n / 16 % 16) (by omega)).1
  have h4 := (to_digit16_hexDigitChar (n % 16) (by omega)).1
  simp only [from_str_radix16, pad4hex, List.isEmpty, List.foldl, h1, h2, h3, h4]
  rw [if_neg (by decide)]
  simp only [Option.some.injEq]
  omega

theorem pad4hex_ascii (n : Nat) : ∀ b ∈ pad4hex n, b < 128 := by
  simp only [pad4hex, hexDigitChar, List.mem_cons, List.not_mem_nil, or_false]
  rintro b (rfl | rfl | rfl | rfl) <;> (split <;> omega)

theorem utf8Valid_ascii : ∀ (l : List Nat), (∀ b ∈ l, b < 128) → utf8Valid l = true := by
  intro l
  induction l with
  | nil => intro h; simp [utf8Valid]
  | cons b rest ih =>
    intro h
    have hb : b < 128 := h b (by simp)
    have hstep : utf8Valid (b :: rest) = utf8Valid rest := by
      conv_lhs => rw [utf8Valid]
      rw [if_pos hb]
    rw [hstep]
    exact ih (fun x hx => h x (by simp [hx]))

theorem findIdx_space_aux (f tail : List Nat) (hf : 32 ∉ f) :
    ∀ i, List.findIdx? (fun byte => byte == 32) (f ++ 32 :: tail) i = some (i + f.length) := by
  induction f with
  | nil => intro i; simp [List.findIdx?_cons]
  | cons a f ih =>
    intro i
    have ha : (a == 32) = false := by
      simp only [beq_eq_false_iff_ne, ne_eq]
      intro h
      exact hf (by simp [h])
    rw [List.cons_append, List.findIdx?_cons]
    simp only [ha]
    rw [if_neg (by simp)]
    rw [ih (fun h => hf (by simp [h])) (i + 1)]
    congr 1
    simp only [List.length_cons]
    omega

theorem findIdx_space (f tail : List Nat) (hf : 32 ∉ f) :
    (f ++ 32 :: tail).findIdx? (fun byte => byte == 32) = some f.length := by
  simpa using findIdx_space_aux f tail hf 0

theorem pad4hex_length (n : Nat) : (pad4hex n).length = 4 := by
  simp [pad4hex]

theorem packetBytes_length (f v : List Nat) :
    (packetBytes f v).length = 4 + f.length + v.length + 2 := by
  simp only [packetBytes, List.length_append, pad4hex_length, List.length_cons,
    List.length_nil]
  omega

theorem depacketize_append (pre f v post : List Nat)
    (hsp : 32 ∉ f) (hlen : 4 + f.length + v.length + 2 ≤ 65535) :
    Token.depacketize (pre ++ (packetBytes f v ++ post)) pre.length =
      RunResult.ok ({ field := f, value := v }, 4 + f.length + v.length + 2) := by
  have hn : 4 + f.length + v.length + 2 < 65536 := by omega
  have hdatalen : (pre ++ (packetBytes f v ++ post)).length
      = pre.length + ((4 + f.length + v.length + 2) + post.length) := by
    simp only [List.length_append, packetBytes_length]
  have hbody : packetBytes f v ++ post
      = pad4hex (4 + f.length + v.length + 2) ++ ((f ++ [32] ++ v ++ [10]) ++ post) := by
    simp [packetBytes]
  have hslice1 : rustSlice (pre ++ (packetBytes f v ++ post)) pre.length (pre.length + 4)
      = pad4hex (4 + f.length + v.length + 2) := by
    unfold rustSlice
    rw [show pre.length + 4 - pre.length = 4 by omega, List.drop_left, hbody]
    exact List.take_left' (pad4hex_length _)
  have hslice2 : rustSlice (pre ++ (packetBytes f v ++ post)) (pre.length + 4)
      (pre.length + (4 + f.length + v.length + 2))
      = f ++ [32] ++ v ++ [10] := by
    unfold rustSlice
    rw [List.drop_append, hbody, List.drop_left' (pad4hex_length _)]
    rw [show pre.length + (4 + f.length + v.length + 2) - (pre.length + 4)
        = f.length + v.length + 2 by omega]
    refine List.take_left' ?_
    simp only [List.length_append, List.length_cons, List.length_nil]
    omega
  simp only [Token.depacketize, hslice1, hslice2]
  rw [if_neg (by rw [hdatalen]; omega)]
  rw [utf8Valid_ascii _ (pad4hex_ascii _)]
  rw [if_neg (by simp)]
  rw [from_str_radix16_pad4hex _ hn]
  simp only []
  rw [if_neg (by omega)]
  rw [if_neg (by rw [hdatalen]; omega)]
  rw [hslice2]
  rw [show f ++ [32] ++ v ++ [10] = f ++ (32 :: (v ++ [10])) by simp]
  rw [findIdx_space f _ hsp]
  simp only [List.take_left, List.drop_left]
  rw [show List.drop 1 (32 :: (v ++ [10])) = v ++ [10] by simp]
  rw [List.getLast?_concat]
  simp only [List.dropLast_concat]
  simp

theorem deserializeLoop_stream (ps : List (List Nat × List Nat)) :
    ∀ pre st, (∀ p ∈ ps, PacketWf p) →
      Token.deserializeLoop (pre ++ packetStream ps) pre.length st =
        RunResult.ok (ps.foldl stepState st) := by
  induction ps with
  | nil =>
    intro pre st hwf
    rw [Token.deserializeLoop, dif_neg (by simp [packetStream])]
    simp [packetStream]
  | cons p ps ih =>
    intro pre st hwf
    obtain ⟨f, v⟩ := p
    obtain ⟨hv256, hfit, hfield⟩ := hwf (f, v) (by simp)
    dsimp only at hv256 hfit hfield
    have hsp : 32 ∉ f := by
      rcases hfield with h | h | h | ⟨h, h32⟩ <;> (subst h; decide)
    have hwf2 : ∀ p ∈ ps, PacketWf p := fun q hq => hwf q (by simp [hq])
    have hstream : packetStream ((f, v) :: ps) = packetBytes f v ++ packetStream ps := rfl
    have hnext : pre.length + (4 + f.length + v.length + 2)
        = (pre ++ packetBytes f v).length := by
      simp [packetBytes_length]
    have hdata : pre ++ (packetBytes f v ++ packetStream ps)
        = (pre ++ packetBytes f v) ++ packetStream ps := (List.append_assoc pre _ _).symm
    rw [Token.deserializeLoop]
    rw [dif_pos (by rw [hstream]
                    simp only [List.length_append, packetBytes_length]
                    omega)]
    rw [hstream, depacketize_append pre f v (packetStream ps) hsp hfit]
    simp only []
    rw [List.foldl_cons]
    rcases hfield with h | h | h | ⟨h, h32⟩
    · subst h
      rw [if_pos rfl, hdata, hnext, ih _ _ hwf2]
      have hstep : stepState st (locationField, v) = { st with location := some v } := by
        simp [stepState]
      rw [hstep]
    · subst h
      rw [if_neg (by decide), if_pos rfl, hdata, hnext, ih _ _ hwf2]
      have hstep : stepState st (identifierField, v) = { st with identifier := some v } := by
        simp [stepState, identifierField, locationField, asciiBytes]
      rw [hstep]
    · subst h
      rw [if_neg (by decide), if_neg (by decide), if_pos rfl, hdata, hnext, ih _ _ hwf2]
      have hstep : stepState st (cidField, v)
          = { st with caveats := st.caveats ++ [Caveat.new (Predicate.mk v)] } := by
        simp [stepState, cidField, locationField, identifierField, asciiBytes]
      rw [hstep]
    · subst h
      rw [if_neg (by decide), if_neg (by decide), if_neg (by decide), if_pos rfl]
      rw [if_neg (by simp [h32]), hdata, hnext, ih _ _ hwf2]
      have hstep : stepState st (signatureField, v) = { st with tag := some v } := by
        simp [stepState, signatureField, locationField, identifierField, cidField, asciiBytes]
      rw [hstep]

theorem locationField_eq : locationField = [108, 111, 99, 97, 116, 105, 111, 110] := by decide

theorem identifierField_eq :
    identifierField = [105, 100, 101, 110, 116, 105, 102, 105, 101, 114] := by decide

theorem cidField_eq : cidField = [99, 105, 100] := by decide

theorem signatureField_eq :
    signatureField = [115, 105, 103, 110, 97, 116, 117, 114, 101] := by decide

theorem stepState_location (st : DeserSt) (p : List Nat × List Nat) :
    (stepState st p).location = if p.1 = locationField then some p.2 else st.location := by
  have h1 := locationField_eq
  have h2 := identifierField_eq
  have h3 := cidField_eq
  have h4 := signatureField_eq
  unfold stepState
  split_ifs <;> simp_all

theorem stepState_identifier (st : DeserSt) (p : List Nat × List Nat) :
    (stepState st p).identifier = if p.1 = identifierField then some p.2 else st.identifier := by
  have h1 := locationField_eq
  have h2 := identifierField_eq
  have h3 := cidField_eq
  have h4 := signatureField_eq
  unfold stepState
  split_ifs <;> simp_all

theorem stepState_tag (st : DeserSt) (p : List Nat × List Nat) :
    (stepState st p).tag = if p.1 = signatureField then some p.2 else st.tag := by
  have h1 := locationField_eq
  have h2 := identifierField_eq
  have h3 := cidField_eq
  have h4 := signatureField_eq
  unfold stepState
  split_ifs <;> simp_all

theorem stepState_caveats (st : DeserSt) (p : List Nat × List Nat) :
    (stepState st p).caveats = st.caveats ++
      (if p.1 = cidField then [Caveat.new (Predicate.mk p.2)] else []) := by
  have h1 := locationField_eq
  have h2 := identifierField_eq
  have h3 := cidField_eq
  have h4 := signatureField_eq
  unfold stepState
  split_ifs <;> simp_all

theorem foldl_stepState_location (ps : List (List Nat × List Nat)) :
    ∀ st, (ps.foldl stepState st).location = (lastField locationField ps).elim st.location some := by
  induction ps with
  | nil => intro st; simp [lastField]
  | cons p ps ih =>
    intro st
    rw [List.foldl_cons, ih]
    show _ = (lastField locationField (p :: ps)).elim st.location some
    rw [lastField]
    cases hl : lastField locationField ps with
    | some w => simp
    | none =>
      simp only [Option.elim]
      rw [stepState_location]
      split_ifs <;> simp

theorem foldl_stepState_identifier (ps : List (List Nat × List Nat)) :
    ∀ st, (ps.foldl stepState st).identifier
      = (lastField identifierField ps).elim st.identifier some := by
  induction ps with
  | nil => intro st; simp [lastField]
  | cons p ps ih =>
    intro st
    rw [List.foldl_cons, ih]
    show _ = (lastField identifierField (p :: ps)).elim st.identifier some
    rw [lastField]
    cases hl : lastField identifierField ps with
    | some w => simp
    | none =>
      simp only [Option.elim]
      rw [stepState_identifier]
      split_ifs <;> simp

theorem foldl_stepState_tag (ps : List (List Nat × List Nat)) :
    ∀ st, (ps.foldl stepState st).tag = (lastField signatureField ps).elim st.tag some := by
  induction ps with
  | nil => intro st; simp [lastField]
  | cons p ps ih =>
    intro st
    rw [List.foldl_cons, ih]
    show _ = (lastField signatureField (p :: ps)).elim st.tag some
    rw [lastField]
    cases hl : lastField signatureField ps with
    | some w => simp
    | none =>
      simp only [Option.elim]
      rw [stepState_tag]
      split_ifs <;> simp

theorem foldl_stepState_caveats (ps : List (List Nat × List Nat)) :
    ∀ st, (ps.foldl stepState st).caveats = st.caveats ++ cidCaveats ps := by
  induction ps with
  | nil => intro st; simp [cidCaveats]
  | cons p ps ih =>
    intro st
    rw [List.foldl_cons, ih]
    show _ = st.caveats ++ cidCaveats (p :: ps)
    rw [cidCaveats, stepState_caveats]
    rw [List.append_assoc]

theorem fieldBytes_lt (p : List Nat × List Nat) (h : PacketWf p) : ∀ b ∈ p.1, b < 256 := by
  obtain ⟨_, _, hf⟩ := h
  rcases hf with h | h | h | ⟨h, _⟩ <;> (rw [h]; decide)

theorem packetBytes_lt (f v : List Nat) (hf : ∀ b ∈ f, b < 256) (hv : ∀ b ∈ v, b < 256) :
    ∀ b ∈ packetBytes f v, b < 256 := by
  intro b hb
  simp only [packetBytes, List.mem_append, List.mem_cons, List.mem_singleton,
    List.not_mem_nil, or_false] at hb
  casesm* _ ∨ _
  all_goals first
    | exact lt_of_lt_of_le (pad4hex_ascii _ b (by assumption)) (by omega)
    | exact hf b (by assumption)
    | exact hv b (by assumption)
    | omega

theorem packetStream_lt (ps : List (List Nat × List Nat)) (hwf : ∀ p ∈ ps, PacketWf p) :
    ∀ b ∈ packetStream ps, b < 256 := by
  induction ps with
  | nil => intro b hb; simp [packetStream] at hb
  | cons p ps ih =>
    intro b hb
    rw [packetStream] at hb
    rcases List.mem_append.mp hb with h | h
    · exact packetBytes_lt p.1 p.2 (fieldBytes_lt p (hwf p (by simp)))
        (hwf p (by simp)).1 b h
    · exact ih (fun q hq => hwf q (by simp [hq])) b h

theorem deserialize_stream (ps : List (List Nat × List Nat)) (hwf : ∀ p ∈ ps, PacketWf p) :
    Token.deserialize (toBase64 (packetStream ps)) =
      (let st := ps.foldl stepState
          { location := none, identifier := none, caveats := [], tag := none }
       if st.location = none then RunResult.err "no location found"
       else if st.identifier = none then RunResult.err "no identifier found"
       else if st.tag = none then RunResult.err "no signature found"
       else RunResult.ok { location := st.location.getD [], identifier := st.identifier.getD [],
                           caveats := st.caveats, tag := st.tag.getD [] }) := by
  unfold Token.deserialize
  rw [from_base64_toBase64 _ (packetStream_lt ps hwf)]
  have hloop := deserializeLoop_stream ps []
    { location := none, identifier := none, caveats := [], tag := none } hwf
  simp only [List.nil_append, List.length_nil] at hloop
  simp only [hloop]

theorem packetize_eq (field : String) (value : List Nat)
    (hfit : 4 + (asciiBytes field).length + value.length + 2 ≤ 65535) :
    Token.packetize field value = RunResult.ok (packetBytes (asciiBytes field) value) := by
  unfold Token.packetize packetBytes
  rw [if_neg (by omega)]

theorem packetStream_append (xs ys : List (List Nat × List Nat)) :
    packetStream (xs ++ ys) = packetStream xs ++ packetStream ys := by
  induction xs with
  | nil => simp [packetStream]
  | cons x xs ih => simp [packetStream, ih]

theorem packetizeCaveats_eq (cs : List Caveat)
    (hfit : ∀ c ∈ cs, 4 + 3 + c.predicate.bytes.length + 2 ≤ 65535) :
    packetizeCaveats cs =
      RunResult.ok (packetStream (cs.map (fun c => (cidField, c.predicate.bytes)))) := by
  induction cs with
  | nil => rfl
  | cons c cs ih =>
    rw [packetizeCaveats]
    rw [packetize_eq "cid" c.predicate.bytes
        (by have h3 : (asciiBytes "cid").length = 3 := by decide
            have := hfit c (by simp)
            omega)]
    rw [ih (fun q hq => hfit q (by simp [hq]))]
    rfl

theorem serializePackets_eq (t : Token)
    (hl : 4 + 8 + t.location.length + 2 ≤ 65535)
    (hi : 4 + 10 + t.identifier.length + 2 ≤ 65535)
    (hc : ∀ c ∈ t.caveats, 4 + 3 + c.predicate.bytes.length + 2 ≤ 65535)
    (ht : 4 + 9 + t.tag.length + 2 ≤ 65535) :
    Token.serializePackets t = RunResult.ok (packetStream (Token.packets t)) := by
  unfold Token.serializePackets
  rw [packetize_eq "location" t.location
      (by have h8 : (asciiBytes "location").length = 8 := by decide
          omega)]
  rw [packetize_eq "identifier" t.identifier
      (by have h10 : (asciiBytes "identifier").length = 10 := by decide
          omega)]
  rw [packetizeCaveats_eq t.caveats hc]
  rw [packetize_eq "signature" t.tag
      (by have h9 : (asciiBytes "signature").length = 9 := by decide
          omega)]
  have hl2 : locationField = asciiBytes "location" := rfl
  have hi2 : identifierField = asciiBytes "identifier" := rfl
  have hs2 : signatureField = asciiBytes "signature" := rfl
  simp only [Token.packets, List.append_eq, packetStream_append, packetStream, List.append_nil,
    List.append_assoc, hl2, hi2, hs2]

theorem lastField_none (f : List Nat) (ps : List (List Nat × List Nat))
    (h : ∀ p ∈ ps, p.1 ≠ f) : lastField f ps = none := by
  induction ps with
  | nil => rfl
  | cons p ps ih =>
    rw [lastField, ih (fun q hq => h q (by simp [hq]))]
    rw [if_neg (h p (by simp))]

theorem cidCaveats_append (xs ys : List (List Nat × List Nat)) :
    cidCaveats (xs ++ ys) = cidCaveats xs ++ cidCaveats ys := by
  induction xs with
  | nil => simp [cidCaveats]
  | cons x xs ih => simp [cidCaveats, ih]

theorem cidCaveats_map (cs : List Caveat) :
    cidCaveats (cs.map (fun c => (cidField, c.predicate.bytes)))
      = cs.map (fun c => Caveat.new (Predicate.mk c.predicate.bytes)) := by
  induction cs with
  | nil => rfl
  | cons c cs ih =>
    simp only [List.map_cons, cidCaveats, ih]
    simp

theorem foldl_add_caveat (mac : Mac) (cs : List Caveat) :
    ∀ t : Token, cs.foldl (Token.add_caveat mac) t =
      { location := t.location, identifier := t.identifier, caveats := t.caveats ++ cs,
        tag := chainFold mac t.tag (cs.map (fun c => c.predicate.bytes)) } := by
  induction cs with
  | nil => intro t; simp [chainFold]
  | cons c cs ih =>
    intro t
    rw [List.foldl_cons, ih]
    simp [Token.add_caveat, chainFold]

theorem buildToken_eq (mac : Mac) (key identifier location : List Nat) (cs : List Caveat) :
    buildToken mac key identifier location cs =
      { location := location, identifier := identifier, caveats := cs,
        tag := chainFold mac (mac identifier (mac key KEY_GENERATOR))
          (cs.map (fun c => c.predicate.bytes)) } := by
  unfold buildToken
  rw [foldl_add_caveat]
  rfl

theorem lastField_isSome (f : List Nat) (ps : List (List Nat × List Nat)) :
    (∃ p ∈ ps, p.1 = f) → lastField f ps ≠ none := by
  induction ps with
  | nil => rintro ⟨p, hp, _⟩; cases hp
  | cons p ps ih =>
    rintro ⟨q, hq, hf⟩
    rw [lastField]
    cases hl : lastField f ps with
    | some w => simp
    | none =>
      rcases List.mem_cons.mp hq with rfl | hq2
      · simp [hf]
      · exact absurd hl (ih ⟨q, hq2, hf⟩)

theorem lastField_of_tail_some (f w : List Nat) (xs ys : List (List Nat × List Nat))
    (h : lastField f ys = some w) : lastField f (xs ++ ys) = some w := by
  induction xs with
  | nil => simpa using h
  | cons x xs ih =>
    rw [List.cons_append, lastField, ih]

theorem IsHex4Of_pad4hex (n : Nat) (hn : n ≤ 65535) : IsHex4Of (pad4hex n) n := by
  refine ⟨by simp [pad4hex], ?_, ?_⟩
  · simp only [pad4hex, List.mem_cons, List.not_mem_nil, or_false]
    rintro d (rfl | rfl | rfl | rfl) <;>
      (unfold hexDigitChar; split <;> omega)
  · have h1 := (to_digit16_hexDigitChar (n / 4096 % 16) (by omega)).1
    have h2 := (to_digit16_hexDigitChar (n / 256 % 16) (by omega)).1
    have h3 := (to_digit16_hexDigitChar (n / 16 % 16) (by omega)).1
    have h4 := (to_digit16_hexDigitChar (n % 16) (by omega)).1
    simp only [pad4hex, List.foldl, h1, h2, h3, h4, Option.getD]
    omega

theorem packetize_ok_inv {field : String} {value p : List Nat}
    (h : Token.packetize field value = RunResult.ok p) :
    4 + (asciiBytes field).length + value.length + 2 ≤ 65535 ∧
      p = packetBytes (asciiBytes field) value := by
  unfold Token.packetize at h
  dsimp only at h
  split at h
  · cases h
  · cases h
    constructor
    · omega
    · rfl

theorem packetizeCaveats_ok_inv (cs : List Caveat) :
    ∀ pc, packetizeCaveats cs = RunResult.ok pc →
      ∀ c ∈ cs, 4 + 3 + c.predicate.bytes.length + 2 ≤ 65535 := by
  induction cs with
  | nil => intro pc h c hc; cases hc
  | cons c cs ih =>
    intro pc h q hq
    rw [packetizeCaveats] at h
    cases hp : Token.packetize "cid" c.predicate.bytes with
    | ok p =>
      rw [hp] at h
      cases hrest : packetizeCaveats cs with
      | ok ps =>
        rcases List.mem_cons.mp hq with rfl | hq2
        · have := (packetize_ok_inv hp).1
          have h3 : (asciiBytes "cid").length = 3 := by decide
          omega
        · exact ih ps hrest q hq2
      | err m => rw [hrest] at h; cases h
      | fatal m => rw [hrest] at h; cases h
    | err m => rw [hp] at h; cases h
    | fatal m => rw [hp] at h; cases h

theorem serializePackets_ok_inv {t : Token} {s : List Nat}
    (h : Token.serializePackets t = RunResult.ok s) :
    (4 + 8 + t.location.length + 2 ≤ 65535) ∧ (4 + 10 + t.identifier.length + 2 ≤ 65535) ∧
    (∀ c ∈ t.caveats, 4 + 3 + c.predicate.bytes.length + 2 ≤ 65535) ∧
    (4 + 9 + t.tag.length + 2 ≤ 65535) ∧ s = packetStream (Token.packets t) := by
  have h8 : (asciiBytes "location").length = 8 := by decide
  have h10 : (asciiBytes "identifier").length = 10 := by decide
  have h9 : (asciiBytes "signature").length = 9 := by decide
  unfold Token.serializePackets at h
  cases h1 : Token.packetize "location" t.location with
  | ok p1 =>
    rw [h1] at h
    cases h2 : Token.packetize "identifier" t.identifier with
    | ok p2 =>
      rw [h2] at h
      cases h3 : packetizeCaveats t.caveats with
      | ok pc =>
        rw [h3] at h
        cases h4 : Token.packetize "signature" t.tag with
        | ok p4 =>
          rw [h4] at h
          cases h
          have i1 := packetize_ok_inv h1
          have i2 := packetize_ok_inv h2
          have i4 := packetize_ok_inv h4
          have ic := packetizeCaveats_ok_inv t.caveats pc h3
          refine ⟨by omega, by omega, ic, by omega, ?_⟩
          have heq := serializePackets_eq t (by omega) (by omega) ic (by omega)
          have hs2 : Token.serializePackets t = RunResult.ok (p1 ++ p2 ++ pc ++ p4) := by
            unfold Token.serializePackets
            rw [h1, h2, h3, h4]
          have hh := hs2.symm.trans heq
          simp only [RunResult.ok.injEq] at hh
          exact hh
        | err m => rw [h4] at h; cases h
        | fatal m => rw [h4] at h; cases h
      | err m => rw [h3] at h; cases h
      | fatal m => rw [h3] at h; cases h
    | err m => rw [h2] at h; cases h
    | fatal m => rw [h2] at h; cases h
  | err m => rw [h1] at h; cases h
  | fatal m => rw [h1] at h; cases h

theorem packetize_oversize (field : String) (value : List Nat)
    (h : 4 + (asciiBytes field).length + value.length + 2 > 65535) :
    Token.packetize field value = RunResult.fatal "packet too large to serialize" := by
  unfold Token.packetize
  dsimp only
  rw [if_pos h]

theorem packetizeCaveats_oversize (cs : List Caveat)
    (h : ∃ c ∈ cs, 4 + 3 + c.predicate.bytes.length + 2 > 65535) :
    packetizeCaveats cs = RunResult.fatal "packet too large to serialize" := by
  have h3 : (asciiBytes "cid").length = 3 := by decide
  induction cs with
  | nil => obtain ⟨c, hc, _⟩ := h; cases hc
  | cons c cs ih =>
    rw [packetizeCaveats]
    by_cases hc : 4 + 3 + c.predicate.bytes.length + 2 > 65535
    · rw [packetize_oversize "cid" c.predicate.bytes (by omega)]
    · obtain ⟨q, hq, hbig⟩ := h
      rcases List.mem_cons.mp hq with rfl | hq2
      · exact absurd hbig hc
      · rw [packetize_eq "cid" c.predicate.bytes (by omega)]
        rw [ih ⟨q, hq2, hbig⟩]

theorem packets_wf (t : Token)
    (hlw : bytesWf t.location) (hiw : bytesWf t.identifier)
    (hcw : ∀ c ∈ t.caveats, bytesWf c.predicate.bytes) (htw : bytesWf t.tag)
    (htag : t.tag.length = 32)
    (hl : 4 + 8 + t.location.length + 2 ≤ 65535)
    (hi : 4 + 10 + t.identifier.length + 2 ≤ 65535)
    (hc : ∀ c ∈ t.caveats, 4 + 3 + c.predicate.bytes.length + 2 ≤ 65535) :
    ∀ p ∈ Token.packets t, PacketWf p := by
  have e8 : locationField.length = 8 := by decide
  have e10 : identifierField.length = 10 := by decide
  have e3 : cidField.length = 3 := by decide
  have e9 : signatureField.length = 9 := by decide
  intro p hp
  simp only [Token.packets, List.append_eq, List.mem_append, List.mem_cons, List.mem_map,
    List.mem_singleton, List.not_mem_nil, or_false] at hp
  rcases hp with (rfl | rfl | ⟨c, hcmem, rfl⟩) | rfl
  · exact ⟨hlw, by show 4 + locationField.length + t.location.length + 2 ≤ 65535; omega,
      Or.inl rfl⟩
  · exact ⟨hiw, by show 4 + identifierField.length + t.identifier.length + 2 ≤ 65535; omega,
      Or.inr (Or.inl rfl)⟩
  · exact ⟨hcw c hcmem,
      by show 4 + cidField.length + c.predicate.bytes.length + 2 ≤ 65535
         have := hc c hcmem
         omega,
      Or.inr (Or.inr (Or.inl rfl))⟩
  · exact ⟨htw, by show 4 + signatureField.length + t.tag.length + 2 ≤ 65535; omega,
      Or.inr (Or.inr (Or.inr ⟨rfl, htag⟩))⟩

theorem packets_lastField_location (t : Token) :
    lastField locationField (Token.packets t) = some t.location := by
  have hrest : lastField locationField
      ((identifierField, t.identifier) ::
        (t.caveats.map (fun c => (cidField, c.predicate.bytes)) ++ [(signatureField, t.tag)]))
      = none := by
    refine lastField_none _ _ ?_
    intro p hp
    rcases List.mem_cons.mp hp with rfl | hp2
    · exact (by decide : identifierField ≠ locationField)
    · rcases List.mem_append.mp hp2 with hmap | hsig
      · obtain ⟨c, _, rfl⟩ := List.mem_map.mp hmap
        exact (by decide : cidField ≠ locationField)
      · rcases List.mem_singleton.mp hsig with rfl
        exact (by decide : signatureField ≠ locationField)
  show lastField locationField ((locationField, t.location) ::
    ((identifierField, t.identifier) ::
      (t.caveats.map (fun c => (cidField, c.predicate.bytes)) ++ [(signatureField, t.tag)])))
    = some t.location
  rw [lastField, hrest]
  simp

theorem packets_lastField_identifier (t : Token) :
    lastField identifierField (Token.packets t) = some t.identifier := by
  have hrest : lastField identifierField
      (t.caveats.map (fun c => (cidField, c.predicate.bytes)) ++ [(signatureField, t.tag)])
      = none := by
    refine lastField_none _ _ ?_
    intro p hp
    rcases List.mem_append.mp hp with hmap | hsig
    · obtain ⟨c, _, rfl⟩ := List.mem_map.mp hmap
      exact (by decide : cidField ≠ identifierField)
    · rcases List.mem_singleton.mp hsig with rfl
      exact (by decide : signatureField ≠ identifierField)
  have hmid : lastField identifierField
      ((identifierField, t.identifier) ::
        (t.caveats.map (fun c => (cidField, c.predicate.bytes)) ++ [(signatureField, t.tag)]))
      = some t.identifier := by
    rw [lastField, hrest]
    simp
  show lastField identifierField ((locationField, t.location) ::
    ((identifierField, t.identifier) ::
      (t.caveats.map (fun c => (cidField, c.predicate.bytes)) ++ [(signatureField, t.tag)])))
    = some t.identifier
  rw [lastField, hmid]

theorem packets_lastField_signature (t : Token) :
    lastField signatureField (Token.packets t) = some t.tag := by
  have htail : lastField signatureField
      (t.caveats.map (fun c => (cidField, c.predicate.bytes)) ++ [(signatureField, t.tag)])
      = some t.tag := by
    refine lastField_of_tail_some _ _ _ _ ?_
    rw [lastField, lastField]
    simp
  have hmid : lastField signatureField
      ((identifierField, t.identifier) ::
        (t.caveats.map (fun c => (cidField, c.predicate.bytes)) ++ [(signatureField, t.tag)]))
      = some t.tag := by
    rw [lastField, htail]
  show lastField signatureField ((locationField, t.location) ::
    ((identifierField, t.identifier) ::
      (t.caveats.map (fun c => (cidField, c.predicate.bytes)) ++ [(signatureField, t.tag)])))
    = some t.tag
  rw [lastField, hmid]

theorem packets_cidCaveats (t : Token) :
    cidCaveats (Token.packets t)
      = t.caveats.map (fun c => Caveat.new (Predicate.mk c.predicate.bytes)) := by
  show cidCaveats ((locationField, t.location) ::
    ((identifierField, t.identifier) ::
      (t.caveats.map (fun c => (cidField, c.predicate.bytes)) ++ [(signatureField, t.tag)])))
    = _
  rw [cidCaveats, cidCaveats, cidCaveats_append, cidCaveats_map]
  rw [if_neg (show ¬(locationField, t.location).1 = cidField from
        (by decide : ¬locationField = cidField))]
  rw [if_neg (show ¬(identifierField, t.identifier).1 = cidField from
        (by decide : ¬identifierField = cidField))]
  rw [show cidCaveats [(signatureField, t.tag)] = [] from by
    rw [cidCaveats]
    rw [if_neg (show ¬(signatureField, t.tag).1 = cidField from
          (by decide : ¬signatureField = cidField))]
    rfl]
  simp

set_option maxRecDepth 4096 in
theorem KEY_GENERATOR_eq :
    KEY_GENERATOR = [109, 97, 99, 97, 114, 111, 111, 110, 115, 45, 107, 101, 121, 45,
      103, 101, 110, 101, 114, 97, 116, 111, 114, 0, 0, 0, 0, 0, 0, 0, 0, 0] := by decide

theorem serialize_oversize (t : Token)
    (h : 4 + 10 + t.identifier.length + 2 > 65535 ∨
         ∃ c ∈ t.caveats, 4 + 3 + c.predicate.bytes.length + 2 > 65535) :
    Token.serialize t = RunResult.fatal "packet too large to serialize" := by
  have h8 : (asciiBytes "location").length = 8 := by decide
  have h10 : (asciiBytes "identifier").length = 10 := by decide
  unfold Token.serialize Token.serializePackets
  by_cases hl : 4 + 8 + t.location.length + 2 ≤ 65535
  · rw [packetize_eq "location" t.location (by omega)]
    rcases h with hbig | hcid
    · rw [packetize_oversize "identifier" t.identifier (by omega)]
    · by_cases hi : 4 + 10 + t.identifier.length + 2 ≤ 65535
      · rw [packetize_eq "identifier" t.identifier (by omega)]
        rw [packetizeCaveats_oversize t.caveats hcid]
      · rw [packetize_oversize "identifier" t.identifier (by omega)]
  · rw [packetize_oversize "location" t.location (by omega)]

theorem roundTrip_fatal (t : Token) (m : String)
    (h : Token.serialize t = RunResult.fatal m) : roundTrip t = RunResult.fatal m := by
  unfold roundTrip
  rw [h]

/-- C1, counterexample: the claim reads the personalized key as
MAC(message = the 32-byte constant, key = root key), but `Token::new` calls
`authenticate(key, Key(KEY_GENERATOR))`, i.e. MAC(message = root key,
key = the constant).  Under a MAC instance that separates the two roles the
two disagree already for root key `[1]` and empty identifier. -/
theorem claim_C1_counterexample :
    (Token.new macConcat [1] [] []).tag ≠ macConcat [] (macConcat KEY_GENERATOR [1]) := by
  simp only [Token.new, macConcat, KEY_GENERATOR_eq]
  decide

/-- C1, amended: `Token::new(k, id, loc)` computes its personalized key as
MAC(message = k, key = the fixed 32-byte constant) and its initial signature
as MAC(message = id, key = that personalized key); the new token carries the
given identifier and location and no caveats. -/
theorem claim_C1_amended (mac : Mac) (k id loc : List Nat) :
    Token.new mac k id loc
      = { location := loc, identifier := id, caveats := [],
          tag := mac id (mac k KEY_GENERATOR) } := rfl

/-- C3, counterexample: the claim quantifies over every token, but a token
whose identifier needs more than 65535 bytes of packet makes `serialize`
abort in `packetize`, so `deserialize(serialize(T))` does not succeed for
`bigToken`. -/
theorem claim_C3_counterexample :
    roundTrip bigToken = RunResult.fatal "packet too large to serialize" := by
  have hilen : bigToken.identifier.length = 65526 := by
    dsimp only [bigToken]
    rw [List.length_replicate]
  exact roundTrip_fatal bigToken "packet too large to serialize"
    (serialize_oversize bigToken (Or.inl (by omega)))

/-- C4: appending a caveat chains the signature (new tag = MAC of the
predicate keyed by the previous tag) and appends exactly that caveat at the
end, leaving identifier, location and the earlier caveats unchanged; hence a
token built by `new` followed by any finite `add_caveat` sequence has as its
signature the fold of the identifier and then each predicate, in order,
through the chain step, starting from the key derived from the root
secret. -/
theorem claim_C4_signature_chain (mac : Mac) (key identifier location : List Nat)
    (cs : List Caveat) (t : Token) (c : Caveat) :
    (Token.add_caveat mac t c).tag = mac c.predicate.bytes t.tag ∧
    (Token.add_caveat mac t c).caveats = t.caveats ++ [c] ∧
    (Token.add_caveat mac t c).identifier = t.identifier ∧
    (Token.add_caveat mac t c).location = t.location ∧
    (buildToken mac key identifier location cs).tag
      = chainFold mac (mac identifier (mac key KEY_GENERATOR))
          (cs.map (fun c => c.predicate.bytes)) ∧
    (buildToken mac key identifier location cs).caveats = cs := by
  refine ⟨rfl, rfl, rfl, rfl, ?_, ?_⟩
  · rw [buildToken_eq]
  · rw [buildToken_eq]

/-- C8: the linked checker built from two checkers accepts a caveat iff
either accepts it, and a chain built from a base checker by repeated `link`
calls accepts a caveat iff the base or at least one chained checker accepts
it — the flat-collection semantics, independent of linking order and
grouping. -/
theorem claim_C8_linked_or (v1 v2 base : VerifierFn) (vs : List VerifierFn) (c : List Nat) :
    Verifier.verify (LinkedVerifier.from v1 v2) c
      = (Verifier.verify v1 c || Verifier.verify v2 c) ∧
    Verifier.verify (linkChain base vs) c
      = (Verifier.verify base c || vs.any (fun v => Verifier.verify v c)) := by
  constructor
  · rfl
  · induction vs generalizing base with
    | nil => simp [linkChain, Verifier.verify]
    | cons v vs ih =>
      show Verifier.verify (linkChain (LinkVerifier.link base v) vs) c = _
      rw [ih (LinkVerifier.link base v)]
      simp only [LinkVerifier.link, LinkedVerifier.from, Verifier.verify, List.any_cons]
      cases hv : v c <;> cases hb : base c <;> simp [hv, hb]

/-- C9: the final signature depends only on the root key, the identifier and
the ordered caveats; two builds differing only in the location argument give
byte-identical signatures. -/
theorem claim_C9_location_not_bound (mac : Mac) (key identifier loc1 loc2 : List Nat)
    (cs : List Caveat) :
    (buildToken mac key identifier loc1 cs).tag
      = (buildToken mac key identifier loc2 cs).tag := by
  rw [buildToken_eq, buildToken_eq]

theorem deserialize_stream_fields (ps : List (List Nat × List Nat))
    (hwf : ∀ p ∈ ps, PacketWf p) :
    Token.deserialize (toBase64 (packetStream ps)) =
      (if lastField locationField ps = none then RunResult.err "no location found"
       else if lastField identifierField ps = none then RunResult.err "no identifier found"
       else if lastField signatureField ps = none then RunResult.err "no signature found"
       else RunResult.ok { location := (lastField locationField ps).getD [],
                           identifier := (lastField identifierField ps).getD [],
                           caveats := cidCaveats ps,
                           tag := (lastField signatureField ps).getD [] }) := by
  rw [deserialize_stream ps hwf]
  cases h1 : lastField locationField ps <;>
    cases h2 : lastField identifierField ps <;>
      cases h3 : lastField signatureField ps <;>
        simp [foldl_stepState_location, foldl_stepState_identifier, foldl_stepState_tag,
          foldl_stepState_caveats, h1, h2, h3]

/-- C5: when packet construction succeeds, the byte stream built before
base64 encoding is exactly one location packet, one identifier packet, one
cid packet per caveat in caveat order, then one signature packet; each
packet is its total length (counting the 4-byte prefix and the trailing
newline) rendered as exactly 4 zero-padded lowercase hex digits, then the
field name, exactly one space byte, the raw value, and exactly one newline
byte, every packet total staying within 65535 bytes. -/
theorem claim_C5_stream_layout (t : Token) (s : List Nat)
    (h : Token.serializePackets t = RunResult.ok s) :
    s = packetBytes locationField t.location ++ (packetBytes identifierField t.identifier ++
        (packetStream (t.caveats.map (fun c => (cidField, c.predicate.bytes))) ++
         packetBytes signatureField t.tag)) ∧
    ∀ fv ∈ Token.packets t,
      4 + fv.1.length + fv.2.length + 2 ≤ 65535 ∧
      IsHex4Of (pad4hex (4 + fv.1.length + fv.2.length + 2))
        (4 + fv.1.length + fv.2.length + 2) := by
  obtain ⟨hl, hi, hc, ht, hs⟩ := serializePackets_ok_inv h
  have e8 : locationField.length = 8 := by decide
  have e10 : identifierField.length = 10 := by decide
  have e3 : cidField.length = 3 := by decide
  have e9 : signatureField.length = 9 := by decide
  constructor
  · rw [hs]
    simp only [Token.packets, List.append_eq, packetStream_append, packetStream,
      List.append_nil, List.append_assoc]
  · intro fv hfv
    have hfit : 4 + fv.1.length + fv.2.length + 2 ≤ 65535 := by
      simp only [Token.packets, List.append_eq, List.mem_append, List.mem_cons, List.mem_map,
        List.mem_singleton, List.not_mem_nil, or_false] at hfv
      rcases hfv with (rfl | rfl | ⟨c, hcmem, rfl⟩) | rfl
      · show 4 + locationField.length + t.location.length + 2 ≤ 65535
        omega
      · show 4 + identifierField.length + t.identifier.length + 2 ≤ 65535
        omega
      · show 4 + cidField.length + c.predicate.bytes.length + 2 ≤ 65535
        have := hc c hcmem
        omega
      · show 4 + signatureField.length + t.tag.length + 2 ≤ 65535
        omega
    exact ⟨hfit, IsHex4Of_pad4hex _ hfit⟩

/-- C6: a token whose identifier or one of whose caveat predicates is large
enough to push a single packet past 65535 bytes fails serialization with the
packet-too-large abort and returns no serialized bytes; a token whose
packets all fit serializes successfully. -/
theorem claim_C6_packet_too_large (t : Token) :
    ((4 + 10 + t.identifier.length + 2 > 65535 ∨
        ∃ c ∈ t.caveats, 4 + 3 + c.predicate.bytes.length + 2 > 65535) →
      Token.serialize t = RunResult.fatal "packet too large to serialize" ∧
      ∀ bs, Token.serialize t ≠ RunResult.ok bs) ∧
    ((4 + 8 + t.location.length + 2 ≤ 65535) → (4 + 10 + t.identifier.length + 2 ≤ 65535) →
      (∀ c ∈ t.caveats, 4 + 3 + c.predicate.bytes.length + 2 ≤ 65535) →
      (4 + 9 + t.tag.length + 2 ≤ 65535) →
      Token.serialize t = RunResult.ok (toBase64 (packetStream (Token.packets t)))) := by
  constructor
  · intro h
    have hf := serialize_oversize t h
    refine ⟨hf, fun bs hok => ?_⟩
    rw [hf] at hok
    cases hok
  · intro hl hi hc ht
    unfold Token.serialize
    rw [serializePackets_eq t hl hi hc ht]

/-- C7: over a well-formed base64 envelope of well-formed packets, decoding
fails naming the missing field — no location packet yields the location
error; a location but no identifier packet yields the identifier error; a
location and an identifier but no signature packet yields the signature
error — and when all three fields appear decoding does not fail for
absence. -/
theorem claim_C7_missing_field (ps : List (List Nat × List Nat))
    (hwf : ∀ p ∈ ps, PacketWf p) :
    ((∀ p ∈ ps, p.1 ≠ locationField) →
      Token.deserialize (toBase64 (packetStream ps)) = RunResult.err "no location found") ∧
    ((∃ p ∈ ps, p.1 = locationField) → (∀ p ∈ ps, p.1 ≠ identifierField) →
      Token.deserialize (toBase64 (packetStream ps)) = RunResult.err "no identifier found") ∧
    ((∃ p ∈ ps, p.1 = locationField) → (∃ p ∈ ps, p.1 = identifierField) →
      (∀ p ∈ ps, p.1 ≠ signatureField) →
      Token.deserialize (toBase64 (packetStream ps)) = RunResult.err "no signature found") ∧
    ((∃ p ∈ ps, p.1 = locationField) → (∃ p ∈ ps, p.1 = identifierField) →
      (∃ p ∈ ps, p.1 = signatureField) →
      ∃ t, Token.deserialize (toBase64 (packetStream ps)) = RunResult.ok t) := by
  rw [deserialize_stream_fields ps hwf]
  refine ⟨?_, ?_, ?_, ?_⟩
  · intro hno
    rw [lastField_none _ _ hno]
    simp
  · intro hloc hno
    cases hx : lastField locationField ps with
    | none => exact absurd hx (lastField_isSome _ _ hloc)
    | some lv =>
      rw [lastField_none _ _ hno]
      simp
  · intro hloc hid hno
    cases hx : lastField locationField ps with
    | none => exact absurd hx (lastField_isSome _ _ hloc)
    | some lv =>
      cases hy : lastField identifierField ps with
      | none => exact absurd hy (lastField_isSome _ _ hid)
      | some iv =>
        rw [lastField_none _ _ hno]
        simp
  · intro hloc hid hsig
    cases hx : lastField locationField ps with
    | none => exact absurd hx (lastField_isSome _ _ hloc)
    | some lv =>
      cases hy : lastField identifierField ps with
      | none => exact absurd hy (lastField_isSome _ _ hid)
      | some iv =>
        cases hz : lastField signatureField ps with
        | none => exact absurd hz (lastField_isSome _ _ hsig)
        | some sv =>
          refine ⟨{ location := lv, identifier := iv, caveats := cidCaveats ps, tag := sv }, ?_⟩
          simp

/-- C10: an input whose individually well-formed packets duplicate the
location, identifier or signature field is not rejected for the
duplication: whenever each required field appears at least once (and every
signature packet carries a 32-byte value), decoding succeeds and each of
these fields carries the value of the last packet of that name in stream
order. -/
theorem claim_C10_duplicates_last_wins (ps : List (List Nat × List Nat))
    (hwf : ∀ p ∈ ps, PacketWf p) (lv iv sv : List Nat)
    (hl : lastField locationField ps = some lv)
    (hi : lastField identifierField ps = some iv)
    (hs : lastField signatureField ps = some sv) :
    Token.deserialize (toBase64 (packetStream ps))
      = RunResult.ok { location := lv, identifier := iv,
                       caveats := cidCaveats ps, tag := sv } := by
  rw [deserialize_stream_fields ps hwf, hl, hi, hs]
  simp

/-- C3, amended: for every token of byte values whose location, identifier
and caveat packets fit within the 65535-byte packet bound (and whose
signature is 32 bytes), deserializing the serialized form succeeds and
returns a token with identical location, identifier, caveat predicate bytes
in the same order, and signature. -/
theorem claim_C3_roundtrip (t : Token)
    (hlw : bytesWf t.location) (hiw : bytesWf t.identifier)
    (hcw : ∀ c ∈ t.caveats, bytesWf c.predicate.bytes) (htw : bytesWf t.tag)
    (htag : t.tag.length = 32)
    (hl : 4 + 8 + t.location.length + 2 ≤ 65535)
    (hi : 4 + 10 + t.identifier.length + 2 ≤ 65535)
    (hc : ∀ c ∈ t.caveats, 4 + 3 + c.predicate.bytes.length + 2 ≤ 65535) :
    ∃ t2, roundTrip t = RunResult.ok t2 ∧
      t2.location = t.location ∧ t2.identifier = t.identifier ∧
      t2.caveats.map (fun c => c.predicate.bytes)
        = t.caveats.map (fun c => c.predicate.bytes) ∧
      t2.tag = t.tag := by
  have hwfp := packets_wf t hlw hiw hcw htw htag hl hi hc
  have hser : Token.serialize t = RunResult.ok (toBase64 (packetStream (Token.packets t))) := by
    unfold Token.serialize
    rw [serializePackets_eq t hl hi hc (by omega)]
  refine ⟨{ location := t.location, identifier := t.identifier,
            caveats := t.caveats.map (fun c => Caveat.new (Predicate.mk c.predicate.bytes)),
            tag := t.tag }, ?_, rfl, rfl, ?_, rfl⟩
  · unfold roundTrip
    rw [hser]
    simp only []
    rw [deserialize_stream_fields (Token.packets t) hwfp]
    rw [packets_lastField_location, packets_lastField_identifier, packets_lastField_signature,
      packets_cidCaveats]
    simp
  · simp [Caveat.new]

theorem deserialize_fatal_first (input : List Nat) (m : String)
    (hin : ∀ b ∈ input, b < 256) (hne : 0 < input.length)
    (hdep : Token.depacketize input 0 = RunResult.fatal m) :
    Token.deserialize (toBase64 input) = RunResult.fatal m := by
  unfold Token.deserialize
  rw [from_base64_toBase64 input hin]
  simp only []
  rw [Token.deserializeLoop, dif_pos hne, hdep]

theorem depacketize_fatal_1 :
    Token.depacketize (asciiBytes "0003") 0 = RunResult.fatal "slice index out of range" := by
  unfold Token.depacketize
  dsimp only
  rw [if_neg (by decide)]
  rw [utf8Valid_ascii _ (by decide), if_neg (by simp)]
  rw [show from_str_radix16 (rustSlice (asciiBytes "0003") 0 (0 + 4)) = some 3 from by decide]
  simp only []
  rw [if_pos (by decide)]

theorem depacketize_fatal_2 :
    Token.depacketize (asciiBytes "0010") 0 = RunResult.fatal "slice index out of range" := by
  unfold Token.depacketize
  dsimp only
  rw [if_neg (by decide)]
  rw [utf8Valid_ascii _ (by decide), if_neg (by simp)]
  rw [show from_str_radix16 (rustSlice (asciiBytes "0010") 0 (0 + 4)) = some 16 from by decide]
  simp only []
  rw [if_neg (by decide)]
  rw [if_pos (by decide)]

theorem depacketize_fatal_3 :
    Token.depacketize (asciiBytes "0006a ") 0 = RunResult.fatal "called unwrap on None" := by
  unfold Token.depacketize
  dsimp only
  rw [if_neg (by decide)]
  rw [utf8Valid_ascii _ (by decide), if_neg (by simp)]
  rw [show from_str_radix16 (rustSlice (asciiBytes "0006a ") 0 (0 + 4)) = some 6 from by decide]
  simp only []
  rw [if_neg (by decide)]
  rw [if_neg (by decide)]
  rw [show (rustSlice (asciiBytes "0006a ") (0 + 4) (0 + 6)).findIdx? (fun byte => byte == 32)
      = some 1 from by decide]
  simp only []
  rw [show (List.drop 1 (List.drop 1 (rustSlice (asciiBytes "0006a ") (0 + 4) (0 + 6)))).getLast?
      = (none : Option Nat) from by decide]

/-- C2: the spec requires every parsing failure to surface as an explicit
result value, never an uncatchable fault, but `Token::deserialize` aborts on
three malformed inputs: the base64 encodings of a packet whose stated length
3 is smaller than the 4-byte prefix (the slice from 4 to 3 is out of
bounds), of a packet whose stated length 16 exceeds the available 4 bytes,
and of a packet whose body is empty after the space separator (`unwrap` of
`None` in the newline check).  This confirms the claim is what the code
should do and records the aborting executions. -/
theorem claim_C2_uncatchable_faults :
    Token.deserialize (toBase64 (asciiBytes "0003"))
      = RunResult.fatal "slice index out of range" ∧
    Token.deserialize (toBase64 (asciiBytes "0010"))
      = RunResult.fatal "slice index out of range" ∧
    Token.deserialize (toBase64 (asciiBytes "0006a "))
      = RunResult.fatal "called unwrap on None" :=
  ⟨deserialize_fatal_first _ _ (by decide) (by decide) depacketize_fatal_1,
   deserialize_fatal_first _ _ (by decide) (by decide) depacketize_fatal_2,
   deserialize_fatal_first _ _ (by decide) (by decide) depacketize_fatal_3⟩

theorem claim_C3_roundtrip_witness :
    (bytesWf sampleToken.location ∧ bytesWf sampleToken.identifier ∧
     (∀ c ∈ sampleToken.caveats, bytesWf c.predicate.bytes) ∧ bytesWf sampleToken.tag ∧
     sampleToken.tag.length = 32 ∧
     4 + 8 + sampleToken.location.length + 2 ≤ 65535 ∧
     4 + 10 + sampleToken.identifier.length + 2 ≤ 65535 ∧
     (∀ c ∈ sampleToken.caveats, 4 + 3 + c.predicate.bytes.length + 2 ≤ 65535)) ∧
    (∃ t2, roundTrip sampleToken = RunResult.ok t2 ∧
      t2.location = sampleToken.location ∧ t2.identifier = sampleToken.identifier ∧
      t2.caveats.map (fun c => c.predicate.bytes)
        = sampleToken.caveats.map (fun c => c.predicate.bytes) ∧
      t2.tag = sampleToken.tag) :=
  ⟨⟨by decide, by decide, by decide, by decide, by decide, by decide, by decide, by decide⟩,
   claim_C3_roundtrip sampleToken (by decide) (by decide) (by decide) (by decide) (by decide)
     (by decide) (by decide) (by decide)⟩

theorem claim_C5_stream_layout_witness :
    Token.serializePackets sampleToken
      = RunResult.ok (packetStream (Token.packets sampleToken)) ∧
    (packetStream (Token.packets sampleToken)
        = packetBytes locationField sampleToken.location ++
          (packetBytes identifierField sampleToken.identifier ++
           (packetStream (sampleToken.caveats.map (fun c => (cidField, c.predicate.bytes))) ++
            packetBytes signatureField sampleToken.tag)) ∧
     ∀ fv ∈ Token.packets sampleToken,
       4 + fv.1.length + fv.2.length + 2 ≤ 65535 ∧
       IsHex4Of (pad4hex (4 + fv.1.length + fv.2.length + 2))
         (4 + fv.1.length + fv.2.length + 2)) :=
  ⟨by decide,
   claim_C5_stream_layout sampleToken (packetStream (Token.packets sampleToken)) (by decide)⟩

theorem claim_C6_packet_too_large_witness :
    ((4 + 10 + bigToken.identifier.length + 2 > 65535 ∨
        ∃ c ∈ bigToken.caveats, 4 + 3 + c.predicate.bytes.length + 2 > 65535) ∧
      Token.serialize bigToken = RunResult.fatal "packet too large to serialize" ∧
      (∀ bs, Token.serialize bigToken ≠ RunResult.ok bs)) ∧
    ((4 + 8 + sampleToken.location.length + 2 ≤ 65535) ∧
     (4 + 10 + sampleToken.identifier.length + 2 ≤ 65535) ∧
     (∀ c ∈ sampleToken.caveats, 4 + 3 + c.predicate.bytes.length + 2 ≤ 65535) ∧
     (4 + 9 + sampleToken.tag.length + 2 ≤ 65535) ∧
     Token.serialize sampleToken
       = RunResult.ok (toBase64 (packetStream (Token.packets sampleToken)))) := by
  have hilen : bigToken.identifier.length = 65526 := by
    dsimp only [bigToken]
    rw [List.length_replicate]
  have hbig : 4 + 10 + bigToken.identifier.length + 2 > 65535 := by omega
  have harm1 := (claim_C6_packet_too_large bigToken).1 (Or.inl hbig)
  exact ⟨⟨Or.inl hbig, harm1.1, harm1.2⟩,
    by decide, by decide, by decide, by decide,
    (claim_C6_packet_too_large sampleToken).2 (by decide) (by decide) (by decide) (by decide)⟩

theorem claim_C7_missing_field_witness :
    (∀ p ∈ noSigPackets, PacketWf p) ∧
    (∃ p ∈ noSigPackets, p.1 = locationField) ∧
    (∃ p ∈ noSigPackets, p.1 = identifierField) ∧
    (∀ p ∈ noSigPackets, p.1 ≠ signatureField) ∧
    Token.deserialize (toBase64 (packetStream noSigPackets))
      = RunResult.err "no signature found" :=
  ⟨by decide, by decide, by decide, by decide,
   (claim_C7_missing_field noSigPackets (by decide)).2.2.1 (by decide) (by decide) (by decide)⟩

theorem claim_C10_duplicates_last_wins_witness :
    (∀ p ∈ dupPackets, PacketWf p) ∧
    lastField locationField dupPackets = some [98] ∧
    lastField identifierField dupPackets = some [105] ∧
    lastField signatureField dupPackets = some (List.replicate 32 1) ∧
    Token.deserialize (toBase64 (packetStream dupPackets))
      = RunResult.ok { location := [98], identifier := [105],
                       caveats := cidCaveats dupPackets, tag := List.replicate 32 1 } :=
  ⟨by decide, by decide, by decide, by decide,
   claim_C10_duplicates_last_wins dupPackets (by decide) [98] [105] (List.replicate 32 1)
     (by decide) (by decide) (by decide)⟩
